import Mathlib

/-!
Verification development for the SDRF → OpenMS conversion module
(`sdrf_pipelines/openms/openms.py`).

The Python source is shallowly embedded: each Python function is translated
into an executable Lean definition over `String`/`List`, Python exceptions
become an explicit `PyError` in `Except`, and the process-wide warning
dictionary (message → count) is modelled as the sequence of recorded warning
messages (the dictionary is recoverable as the multiset of that list).
Cell values come from a tab-separated file, so embedded strings are assumed
to contain no newline or tab characters (a TSV cell cannot contain them);
the regex helpers below rely on this when modelling `.` and `$`.
-/

namespace SdrfOpenms

/-- Python exceptions that can escape the translated code. -/
inductive PyError where
  /-- `raise Exception("only UNIMOD modifications supported. " + m)`;
      the argument is the full exception message. -/
  | unsupportedAuthority (msg : String)
  /-- `AttributeError`: calling `.group(1)` on a failed `re.search` (`None`). -/
  | attributeError
  /-- `UnboundLocalError`: reading a local variable before any assignment. -/
  | unboundLocalError
  /-- `IndexError`: list subscript out of range. -/
  | indexError
  /-- `KeyError`: dictionary subscript with a missing key. -/
  | keyError
  /-- `ValueError`: failed `int(...)` parse or failed `list.index`. -/
  | valueError
  deriving DecidableEq, BEq

/-- Python `dict` lookup `d[k]` as an association-list lookup
    (first binding of the key wins; `dictSet` keeps keys unique). -/
def dictGet {β : Type} : List (String × β) → String → Option β
  | [], _ => none
  | (k', v') :: t, k => if k' = k then some v' else dictGet t k

/-- Python `dict` assignment `d[k] = v`: update in place if the key is
    present, otherwise append the new binding. -/
def dictSet {β : Type} : List (String × β) → String → β → List (String × β)
  | [], k, v => [(k, v)]
  | (k', v') :: t, k, v => if k' = k then (k, v) :: t else (k', v') :: dictSet t k v

/-- Convert an `Option` into `Except`, raising the given Python error on
    `none` (models `None`-propagating failures such as `.group` on `None`). -/
def ofOption {α : Type} (e : PyError) : Option α → Except PyError α
  | some a => .ok a
  | none => .error e

/-- Contiguous-sublist test on character lists. -/
def listInfix (pat : List Char) : List Char → Bool
  | [] => pat.isEmpty
  | s@(_ :: rest) => pat.isPrefixOf s || listInfix pat rest

/-- Python substring test `pat in s`. -/
def strContains (s pat : String) : Bool :=
  listInfix pat.toList s.toList

/-- Case-insensitive substring test (ASCII lowering, as for the data here). -/
def strContainsCI (s pat : String) : Bool :=
  strContains (String.mk (s.toList.map Char.toLower)) (String.mk (pat.toList.map Char.toLower))

/-- Python single-character `s.split(sep)` (empty pieces are kept). -/
def splitOnCharAux (sep : Char) : List Char → List Char → List (List Char)
  | [], acc => [acc.reverse]
  | c :: t, acc => if c = sep then acc.reverse :: splitOnCharAux sep t [] else splitOnCharAux sep t (c :: acc)

/-- Python single-character `s.split(sep)` on strings. -/
def strSplit (s : String) (sep : Char) : List String :=
  (splitOnCharAux sep s.toList []).map String.mk

/-- Python `str.capitalize()`: first character upper-cased, rest lower-cased
    (ASCII suffices for the data handled here). -/
def pyCapitalize (s : String) : String :=
  match s.toList with
  | [] => ""
  | c :: rest => String.mk (c.toUpper :: rest.map Char.toLower)

/-- Python `str.upper()` (ASCII). -/
def pyUpper (s : String) : String :=
  String.mk (s.toList.map Char.toUpper)

/-- Python `str.lower()` (ASCII). -/
def pyLower (s : String) : String :=
  String.mk (s.toList.map Char.toLower)

/-- Left-to-right non-overlapping replacement of every occurrence of a
    nonempty pattern, on character lists; `fuel` bounds the recursion by the
    input length. -/
def replaceAllAux (pat rep : List Char) : Nat → List Char → List Char
  | 0, _ => []
  | _, [] => []
  | fuel + 1, s@(c :: rest) =>
    if pat ≠ [] ∧ pat.isPrefixOf s then
      rep ++ replaceAllAux pat rep fuel (s.drop pat.length)
    else
      c :: replaceAllAux pat rep fuel rest

/-- Python `s.replace(pat, rep)` for a nonempty pattern. -/
def pyReplace (s pat rep : String) : String :=
  String.mk (replaceAllAux pat.toList rep.toList s.length s.toList)

/-- Decimal parse of a nonempty all-digit character list. -/
def parseNatAux : List Char → Nat → Option Nat
  | [], acc => some acc
  | c :: t, acc => if c.isDigit then parseNatAux t (acc * 10 + (c.toNat - 48)) else none

/-- Python `int(s)` on the plain decimal numerals (optionally negated) that
    this pipeline stores in its replicate fields; `none` models `ValueError`. -/
def pyInt (s : String) : Option Int :=
  match s.toList with
  | [] => none
  | ['-'] => none
  | '-' :: rest => (parseNatAux rest 0).map (fun n => -(n : Int))
  | l => (parseNatAux l 0).map (fun n => (n : Int))

/-- Python comparison of a `list` with a `str`: values of different types
    are never equal, so `aa == "N-term"` in the source is constantly false.
    The arguments are kept so the call site mirrors the source text. -/
def pyListEqStr (_ : List String) (_ : String) : Bool :=
  false

/-- Remainder of the subject after the first (leftmost) occurrence of the
    nonempty pattern; `none` when the pattern does not occur. -/
def firstOccurrenceRest (pat : List Char) : List Char → Option (List Char)
  | [] => none
  | s@(_ :: rest) =>
    if pat.isPrefixOf s then some (s.drop pat.length)
    else firstOccurrenceRest pat rest

/-- `re.search(tag + "(.+?)(;|$)", m)` followed by `.group(1)`: the lazily
    captured group is the shortest nonempty run after the leftmost viable
    occurrence of `tag` that is followed by `;` or the end of the string.
    With a nonempty remainder this is its head plus everything up to the next
    `;`; an empty remainder means the tag sits at the end of the string, where
    no later occurrence can exist, so the search fails. -/
def reSearchTag (tag m : String) : Option String :=
  match firstOccurrenceRest tag.toList m.toList with
  | none => none
  | some [] => none
  | some (c :: rest) => some (String.mk (c :: rest.takeWhile (fun ch => ch ≠ ';')))

/-- The malformed presence check `re.search("PP=(.+?)[;$]", m) is not None`
    from the source: the character class matches a literal `;` or a literal
    `$`, so a match exists iff the leftmost occurrence of `PP=` is followed by
    at least one character and then some `;` or `$` character. -/
def ppCheckMatch (m : String) : Bool :=
  match firstOccurrenceRest "PP=".toList m.toList with
  | none => false
  | some [] => false
  | some (_ :: rest) => rest.any (fun ch => ch = ';' || ch = '$')

/-! ### `OpenMS.openms_ify_mods` -/

/-- Local state of one `openms_ify_mods` call: descriptors accumulated so
    far, the current value of the Python local `ta` (`none` before its first
    assignment), and the warnings recorded so far. -/
structure IfyState where
  oms : List String
  ta : Option String
  warnings : List String
  deriving DecidableEq

/-- The authority gate at the top of the loop body:
    `"AC=UNIMOD" not in m and "AC=Unimod" not in m` raises. -/
def hasAuthorityMarker (m : String) : Bool :=
  strContains m "AC=UNIMOD" || strContains m "AC=Unimod"

/-- Warning text for a missing `TA=` tag. -/
def wNoTA : String := "Warning no TA= specified. Setting to N-term or C-term if possible."

/-- Warning text when terminus inference from the position fails. -/
def wSkip : String := "Reassignment not possible. Skipping."

/-- Position resolution: the malformed check regex `PP=(.+?)[;$]` decides
    absence (defaulting to `Anywhere`); on presence the correct regex
    `PP=(.+?)(;|$)` extracts the value. -/
def ppResolve (m : String) : Except PyError String :=
  if ppCheckMatch m = false then .ok "Anywhere"
  else
    match reSearchTag "PP=" m with
    | none => .error .attributeError
    | some v => .ok v

/-- Target-site resolution: explicit `TA=` value, else terminus inference
    from the position with a warning; when inference fails a second warning
    is recorded and — since the source's `pass` does not skip the iteration —
    the Python local `ta` keeps its value from the previous iteration. -/
def taResolve (m pp : String) (ta0 : Option String) : Option String × List String :=
  match reSearchTag "TA=" m with
  | some v => (some v, [])
  | none =>
    if strContains pp "C-term" then (some "C-term", [wNoTA])
    else if strContains pp "N-term" then (some "N-term", [wNoTA])
    else (ta0, [wNoTA, wSkip])

/-- Expansion of one annotation's descriptors over its target-site list.
    Mirrors the three position branches of the source, including the
    comparison `aa == "N-term"` of a list against a string in the
    `Any N-term`/`Any C-term` branch, which is constantly false in Python. -/
def expandDescriptors (pp name : String) (aa : List String) : List String :=
  if pp = "Protein N-term" ∨ pp = "Protein C-term" then
    aa.map (fun a =>
      if a = "C-term" ∨ a = "N-term" then name ++ " (" ++ pp ++ ")"
      else name ++ " (" ++ pp ++ " " ++ a ++ ")")
  else if pp = "Any N-term" ∨ pp = "Any C-term" then
    let pp2 := pyReplace pp "Any " ""
    aa.map (fun a =>
      if a = "C-term" ∨ pyListEqStr aa "N-term" = true then name ++ " (" ++ pp2 ++ ")"
      else name ++ " (" ++ pp2 ++ " " ++ a ++ ")")
  else
    aa.map (fun a => name ++ " (" ++ a ++ ")")

/-- Loop body of `openms_ify_mods` after the authority gate, for one
    annotation `m`: name extraction/capitalization and accession lookup
    (the lookup collaborator `UnimodDatabase.get_by_accession` is out of
    scope and passed in as `lookup`), position and target-site resolution,
    then descriptor expansion. A `pass`-through with an unassigned `ta`
    raises `UnboundLocalError` at `ta.split(",")`. -/
def processModBody (lookup : String → Option String) (m : String) (st : IfyState) :
    Except PyError IfyState :=
  match reSearchTag "NT=" m with
  | none => .error .attributeError
  | some nt =>
    match reSearchTag "AC=" m with
    | none => .error .attributeError
    | some acc =>
      match ppResolve m with
      | .error e => .error e
      | .ok pp =>
        match taResolve m pp st.ta with
        | (none, _) => .error .unboundLocalError
        | (some taVal, ws) =>
          let name :=
            match lookup acc with
            | some canonical => canonical
            | none => pyCapitalize nt
          let aa := strSplit taVal ','
          .ok ⟨st.oms ++ expandDescriptors pp name aa, some taVal, st.warnings ++ ws⟩

/-- One iteration of the `openms_ify_mods` loop: the authority gate, then
    the body. -/
def processMod (lookup : String → Option String) (m : String) (st : IfyState) :
    Except PyError IfyState :=
  if strContains m "AC=UNIMOD" = false ∧ strContains m "AC=Unimod" = false then
    .error (.unsupportedAuthority ("only UNIMOD modifications supported. " ++ m))
  else processModBody lookup m st

/-- The `for m in sdrf_mods` loop of `openms_ify_mods`. -/
def runMods (lookup : String → Option String) : List String → IfyState → Except PyError IfyState
  | [], st => .ok st
  | m :: t, st => (processMod lookup m st).bind (runMods lookup t)

/-- `OpenMS.openms_ify_mods`: translate a list of annotation strings into
    the comma-joined OpenMS modification string, also returning the warnings
    recorded during the call. On a raised exception the warnings recorded
    before the raise are retained by the caller's shared dictionary in
    Python; no claim here depends on them, so the error case carries none. -/
def openms_ify_mods (lookup : String → Option String) (mods : List String) :
    Except PyError (String × List String) :=
  (runMods lookup mods ⟨[], none, []⟩).map (fun st => (String.intercalate "," st.oms, st.warnings))

/-! ### `openms_convert`: the per-row metadata extraction pass

One input row of the loaded table (`sdrf.iterrows()`), restricted to the
columns the extraction pass reads. The `Option` fields model the
`'column' in row` presence checks; `factorVals` and `characteristicVals`
are the row's values at the factor / characteristic columns selected for
condition derivation. -/
structure Row where
  dataFile : String
  sourceName : String
  mods : List String
  pcTol : Option String
  fragTol : Option String
  dissMethod : Option String
  techRep : Option String
  fraction : Option String
  cleavage : String
  label : String
  factorVals : List String
  characteristicVals : List String
  deriving DecidableEq

/-- The twelve dictionaries of class `FileToColumnEntries`. All twelve are
    class attributes (assigned in the class body, and the class has no
    `__init__`), so in Python they belong to the class object itself. -/
structure F2CState where
  file2mods : List (String × (String × String))
  file2pctol : List (String × String)
  file2pctolunit : List (String × String)
  file2fragtol : List (String × String)
  file2fragtolunit : List (String × String)
  file2diss : List (String × String)
  file2enzyme : List (String × String)
  file2fraction : List (String × String)
  file2label : List (String × String)
  file2source : List (String × String)
  file2combined_factors : List (String × String)
  file2technical_rep : List (String × String)
  deriving DecidableEq

/-- The class-attribute dictionaries at interpreter start: twelve fresh
    empty dicts, created once when the `class` statement runs. -/
def F2CState.classInit : F2CState :=
  ⟨[], [], [], [], [], [], [], [], [], [], [], []⟩

/-- `FileToColumnEntries()` — constructing an instance. The class defines no
    `__init__` and no instance attributes; every attribute read or indexed
    write (`f2c.file2mods[raw] = ...`) resolves to the class-level
    dictionaries, so construction returns the existing class state
    unchanged: nothing is reset. -/
def fileToColumnEntriesNew (classState : F2CState) : F2CState :=
  classState

/-- State threaded through the extraction loop: the `FileToColumnEntries`
    class dictionaries, the run-local `source_name_list` and
    `source_name2n_reps` (locals of `openms_convert`, re-initialised every
    run), and the warnings recorded so far. -/
structure ExtractState where
  f2c : F2CState
  snl : List String
  reps : List (String × Int)
  warnings : List String
  deriving DecidableEq

/-- Python string `<` (lexicographic by code point), for `list.sort()`. -/
def charListLt : List Char → List Char → Bool
  | [], [] => false
  | [], _ :: _ => true
  | _ :: _, [] => false
  | a :: as, b :: bs => if a < b then true else if b < a then false else charListLt as bs

/-- Insertion into an ascending list under Python string comparison. -/
def pyInsertSorted (x : String) : List String → List String
  | [] => [x]
  | y :: t => if charListLt y.toList x.toList then y :: pyInsertSorted x t else x :: y :: t

/-- Python `list.sort()` on strings (ascending by code point; stability is
    irrelevant here because equal sort keys are equal values). -/
def pySort (l : List String) : List String :=
  l.foldr pyInsertSorted []

/-- Warning texts of the extraction pass and the condition deriver. -/
def wNoPcTol : String := "No precursor mass tolerance set. Assuming 10 ppm."

/-- Warning text for an unparseable precursor tolerance. -/
def wInvPcTol : String := "Invalid precursor mass tolerance set. Assuming 10 ppm."

/-- Warning text for a missing fragment tolerance. -/
def wNoFragTol : String := "No fragment mass tolerance set. Assuming 20 ppm."

/-- Warning text for an unparseable fragment tolerance. -/
def wInvFragTol : String := "Invalid fragment mass tolerance set. Assuming 20 ppm."

/-- Warning text for a missing dissociation method. -/
def wNoDiss : String := "No dissociation method provided. Assuming HCD."

/-- Warning text when neither factors nor characteristics are informative. -/
def wNoFactors : String := "No factors specified. Adding dummy factor used as condition."

/-- Warning text when characteristics substitute for missing factors. -/
def wCharFactors : String :=
  "No factors specified. Adding non-redundant characteristics as factor. Will be used as condition."

/-- Precursor-tolerance block (value, unit, warnings): missing column →
    default `10 ppm` with a warning; a value containing `ppm` or `Da` is
    split on single spaces and its first two pieces are taken (an
    `IndexError` escapes when there is no second piece); otherwise the
    default applies with the `Invalid` warning. -/
def pcTolValue : Option String → Except PyError (String × String × List String)
  | none => .ok ("10", "ppm", [wNoPcTol])
  | some s =>
    if strContains s "ppm" || strContains s "Da" then
      match (strSplit s ' ').get? 0, (strSplit s ' ').get? 1 with
      | some p0, some p1 => .ok (p0, p1, [])
      | _, _ => .error .indexError
    else .ok ("10", "ppm", [wInvPcTol])

/-- Fragment-tolerance block, analogous to `pcTolValue` with default
    `20 ppm`. The source's `f_tol_str.replace("PPM", "ppm")` is computed and
    discarded (its result is never assigned), so an upper-case `PPM` unit
    still falls into the `Invalid` branch. -/
def fragTolValue : Option String → Except PyError (String × String × List String)
  | none => .ok ("20", "ppm", [wNoFragTol])
  | some s =>
    let _discarded := pyReplace s "PPM" "ppm"
    if strContains s "ppm" || strContains s "Da" then
      match (strSplit s ' ').get? 0, (strSplit s ' ').get? 1 with
      | some p0, some p1 => .ok (p0, p1, [])
      | _, _ => .error .indexError
    else .ok ("20", "ppm", [wInvFragTol])

/-- Dissociation-method block: missing column → `HCD` with a warning; a
    present value has its `NT=` tag extracted (an `AttributeError` escapes
    when the tag is absent) and upper-cased. -/
def dissValue : Option String → Except PyError (String × List String)
  | none => .ok ("HCD", [wNoDiss])
  | some s =>
    match reSearchTag "NT=" s with
    | none => .error .attributeError
    | some v => .ok (pyUpper v, [])

/-- Technical-replicate block: missing column or a value containing
    `not available` → `"1"`; otherwise the value itself. The source records
    no warning in any branch of this block. -/
def techRepValue : Option String → String
  | none => "1"
  | some s => if strContains s "not available" then "1" else s

/-- Fraction-identifier block: same shape as the technical-replicate block,
    likewise without any warning. -/
def fractionValue : Option String → String
  | none => "1"
  | some s => if strContains s "not available" then "1" else s

/-- Cleavage-agent block: `NT=` extraction (an `AttributeError` escapes when
    absent), capitalization, and the `Trypsin/p` → `Trypsin/P` workaround. -/
def enzymeValue (cleavage : String) : Except PyError String :=
  match reSearchTag "NT=" cleavage with
  | none => .error .attributeError
  | some v =>
    let e := pyCapitalize v
    .ok (if strContains e "Trypsin/p" then "Trypsin/P" else e)

/-- Label block: `NT=` extraction from `comment[label]`. -/
def labelValue (label : String) : Except PyError String :=
  match reSearchTag "NT=" label with
  | none => .error .attributeError
  | some v => .ok v

/-- `OpenMS.combine_factors_to_conditions` for one row: join the factor
    values with `|`; on an empty join fall back to the characteristic
    values; on a second empty join use the sentinel `"none"`. Returns the
    condition together with the warnings recorded. -/
def combine_factors_to_conditions (characteristicVals factorVals : List String) :
    String × List String :=
  let combined := String.intercalate "|" factorVals
  if combined = "" then
    let combined2 := String.intercalate "|" characteristicVals
    if combined2 = "" then ("none", [wNoFactors])
    else (combined2, [wCharFactors])
  else (combined, [])

/-- Extraction loop, modification block (the two `openms_ify_mods` calls on
    the sorted fixed and variable sublists; the `is not None` guards on the
    two lists are always true in Python and are dropped). -/
def stepMods (lookup : String → Option String) (row : Row) (st : ExtractState) :
    Except PyError ExtractState :=
  match openms_ify_mods lookup (pySort (row.mods.filter
      (fun m => strContains m "MT=fixed" || strContains m "MT=Fixed"))) with
  | .error e => .error e
  | .ok fx =>
    match openms_ify_mods lookup (pySort (row.mods.filter
        (fun m => strContains m "MT=variable" || strContains m "MT=Variable"))) with
    | .error e => .error e
    | .ok vr =>
      .ok { st with
        f2c := { st.f2c with
          file2mods := dictSet st.f2c.file2mods row.dataFile (fx.1, vr.1) },
        warnings := st.warnings ++ fx.2 ++ vr.2 }

/-- Extraction loop, source-name block: record the file's source and append
    a first-encountered source name to `source_name_list`. -/
def stepSource (row : Row) (st : ExtractState) : ExtractState :=
  { st with
    f2c := { st.f2c with
      file2source := dictSet st.f2c.file2source row.dataFile row.sourceName },
    snl := if row.sourceName ∈ st.snl then st.snl else st.snl ++ [row.sourceName] }

/-- Extraction loop, precursor-tolerance block. -/
def stepPcTol (row : Row) (st : ExtractState) : Except PyError ExtractState :=
  match pcTolValue row.pcTol with
  | .error e => .error e
  | .ok vuw =>
    .ok { st with
      f2c := { st.f2c with
        file2pctol := dictSet st.f2c.file2pctol row.dataFile vuw.1,
        file2pctolunit := dictSet st.f2c.file2pctolunit row.dataFile vuw.2.1 },
      warnings := st.warnings ++ vuw.2.2 }

/-- Extraction loop, fragment-tolerance block. -/
def stepFragTol (row : Row) (st : ExtractState) : Except PyError ExtractState :=
  match fragTolValue row.fragTol with
  | .error e => .error e
  | .ok vuw =>
    .ok { st with
      f2c := { st.f2c with
        file2fragtol := dictSet st.f2c.file2fragtol row.dataFile vuw.1,
        file2fragtolunit := dictSet st.f2c.file2fragtolunit row.dataFile vuw.2.1 },
      warnings := st.warnings ++ vuw.2.2 }

/-- Extraction loop, dissociation-method block. -/
def stepDiss (row : Row) (st : ExtractState) : Except PyError ExtractState :=
  match dissValue row.dissMethod with
  | .error e => .error e
  | .ok vw =>
    .ok { st with
      f2c := { st.f2c with file2diss := dictSet st.f2c.file2diss row.dataFile vw.1 },
      warnings := st.warnings ++ vw.2 }

/-- Extraction loop, technical-replicate block, including the subsequent
    update of the run-local `source_name2n_reps` maximum (whose `int(...)`
    parse raises `ValueError` on a non-numeric replicate value; the source
    performs the dictionary write before that parse, indistinguishable here
    since an exception aborts the run). -/
def stepTechRep (row : Row) (st : ExtractState) : Except PyError ExtractState :=
  match pyInt (techRepValue row.techRep) with
  | none => .error .valueError
  | some n =>
    .ok { st with
      f2c := { st.f2c with
        file2technical_rep :=
          dictSet st.f2c.file2technical_rep row.dataFile (techRepValue row.techRep) },
      reps :=
        match dictGet st.reps row.sourceName with
        | some old => dictSet st.reps row.sourceName (max old n)
        | none => dictSet st.reps row.sourceName n }

/-- Extraction loop, cleavage-agent block. -/
def stepEnzyme (row : Row) (st : ExtractState) : Except PyError ExtractState :=
  match enzymeValue row.cleavage with
  | .error e => .error e
  | .ok v =>
    .ok { st with
      f2c := { st.f2c with file2enzyme := dictSet st.f2c.file2enzyme row.dataFile v } }

/-- Extraction loop, fraction-identifier block. -/
def stepFraction (row : Row) (st : ExtractState) : ExtractState :=
  { st with
    f2c := { st.f2c with
      file2fraction := dictSet st.f2c.file2fraction row.dataFile (fractionValue row.fraction) } }

/-- Extraction loop, label block. -/
def stepLabel (row : Row) (st : ExtractState) : Except PyError ExtractState :=
  match labelValue row.label with
  | .error e => .error e
  | .ok v =>
    .ok { st with
      f2c := { st.f2c with file2label := dictSet st.f2c.file2label row.dataFile v } }

/-- Extraction loop, condition block (the non-split mode; the parallel write
    of the condition into the dataframe's `_conditions_from_factors` column
    only feeds the split-by-columns output mode and is not modelled). -/
def stepFactors (row : Row) (st : ExtractState) : ExtractState :=
  let cw := combine_factors_to_conditions row.characteristicVals row.factorVals
  { st with
    f2c := { st.f2c with
      file2combined_factors := dictSet st.f2c.file2combined_factors row.dataFile cw.1 },
    warnings := st.warnings ++ cw.2 }

/-- One iteration of the extraction loop over `sdrf.iterrows()`, in source
    order. On a raised exception Python would retain the class-dictionary
    writes already performed; the claims below only concern completed runs,
    so the error case carries no state. -/
def extractRow (lookup : String → Option String) (st : ExtractState) (row : Row) :
    Except PyError ExtractState :=
  match stepMods lookup row st with
  | .error e => .error e
  | .ok st1 =>
    match stepPcTol row (stepSource row st1) with
    | .error e => .error e
    | .ok st3 =>
      match stepFragTol row st3 with
      | .error e => .error e
      | .ok st4 =>
        match stepDiss row st4 with
        | .error e => .error e
        | .ok st5 =>
          match stepTechRep row st5 with
          | .error e => .error e
          | .ok st6 =>
            match stepEnzyme row st6 with
            | .error e => .error e
            | .ok st7 =>
              match stepLabel row (stepFraction row st7) with
              | .error e => .error e
              | .ok st9 => .ok (stepFactors row st9)

/-- The whole extraction loop. -/
def extractAll (lookup : String → Option String) : ExtractState → List Row → Except PyError ExtractState
  | st, [] => .ok st
  | st, row :: t =>
    match extractRow lookup st row with
    | .error e => .error e
    | .ok st' => extractAll lookup st' t

/-- Extraction phase of one `openms_convert` run (non-split mode): a fresh
    `FileToColumnEntries()` is constructed from the current class state —
    which, having no instance attributes, is the class state itself — and
    the run-local source list, replicate maxima and warnings start empty. -/
def openms_convert_extract (lookup : String → Option String) (classState : F2CState)
    (rows : List Row) : Except PyError ExtractState :=
  extractAll lookup ⟨fileToColumnEntriesNew classState, [], [], []⟩ rows

/-- All twelve `FileToColumnEntries` dictionaries agree between the class
    states `a` and `b` at the key `k`. -/
def mapsAgreeAt (k : String) (a b : F2CState) : Prop :=
  dictGet a.file2mods k = dictGet b.file2mods k ∧
  dictGet a.file2pctol k = dictGet b.file2pctol k ∧
  dictGet a.file2pctolunit k = dictGet b.file2pctolunit k ∧
  dictGet a.file2fragtol k = dictGet b.file2fragtol k ∧
  dictGet a.file2fragtolunit k = dictGet b.file2fragtolunit k ∧
  dictGet a.file2diss k = dictGet b.file2diss k ∧
  dictGet a.file2enzyme k = dictGet b.file2enzyme k ∧
  dictGet a.file2fraction k = dictGet b.file2fraction k ∧
  dictGet a.file2label k = dictGet b.file2label k ∧
  dictGet a.file2source k = dictGet b.file2source k ∧
  dictGet a.file2combined_factors k = dictGet b.file2combined_factors k ∧
  dictGet a.file2technical_rep k = dictGet b.file2technical_rep k

/-! ### `OpenMS.removeRedundantCharacteristics` -/

/-- Inner loop over the factor columns for one characteristic column `c`:
    add `c` to the redundant set when its value sequence equals a factor
    column's, and leave the loop variable `f` bound to the factor last
    iterated. The set is modelled as a duplicate-free list. -/
def rrcInner (col : String → List String) (c : String) :
    List String → List String × Option String → List String × Option String
  | [], acc => acc
  | fc :: t, acc =>
    rrcInner col c t
      (if col c = col fc ∧ c ∉ acc.1 then acc.1 ++ [c] else acc.1, some fc)

/-- Outer loop over the characteristic columns. -/
def rrcOuter (col : String → List String) (factors : List String) :
    List String → List String × Option String → List String × Option String
  | [], acc => acc
  | c :: t, acc => rrcOuter col factors t (rrcInner col c factors acc)

/-- `OpenMS.removeRedundantCharacteristics`: drop every characteristic
    column whose value sequence equals some factor column's, preserving
    order, and return the pair `(filtered list, f)` from the source — where
    `f` is the inner loop variable, unassigned (hence `UnboundLocalError` at
    the `return`) whenever the nested loop body never ran. `col` maps a
    column name to its value sequence (`sdrf[c]`; pandas `.equals` on these
    all-string columns is element-wise equality). -/
def removeRedundantCharacteristics (chars : List String) (col : String → List String)
    (factors : List String) : Except PyError (List String × String) :=
  match rrcOuter col factors chars ([], none) with
  | (_, none) => .error .unboundLocalError
  | (red, some fv) => .ok (chars.filter (fun x => decide (x ∉ red)), fv)

/-! ### The experimental-design writers -/

/-- One line of the file-level table of the two-table design. -/
structure FileRow where
  fractionGroup : String
  fraction : String
  spectraFilepath : String
  label : String
  sample : String
  deriving DecidableEq

/-- One line of the sample-level table of the two-table design. -/
structure SampleRow where
  sample : String
  condition : String
  bioReplicate : String
  deriving DecidableEq

/-- One line of the one-table design; the `Sample` column is emitted only
    under the legacy flag, hence optional here. -/
structure OneTableRow where
  fractionGroup : String
  fraction : String
  spectraFilepath : String
  label : String
  sample : Option String
  condition : String
  bioReplicate : String
  deriving DecidableEq

/-- Python `source_name_list.index(source_name)` (first index; absence
    raises `ValueError`). -/
def listIndex (l : List String) (x : String) : Option Nat :=
  l.findIdx? (fun y => y = x)

/-- The offset loop shared by all three design writers:
    `for i in range(idx): offset += int(source_name2n_reps[source_name_list[i]])`.
    The replicate maxima are already integers, so the inner `int(...)` is
    the identity; a missing source name raises `KeyError`. -/
def offsetFor (snl : List String) (reps : List (String × Int)) : Nat → Except PyError Int
  | 0 => .ok 0
  | n + 1 =>
    match offsetFor snl reps n with
    | .error e => .error e
    | .ok acc =>
      match snl.get? n with
      | none => .error .indexError
      | some s =>
        match dictGet reps s with
        | none => .error .keyError
        | some r => .ok (acc + r)

/-- `raw_ext_regex.sub(".mzML", raw)` for `re.compile(r"\.raw$", IGNORECASE)`:
    rewrite a case-insensitive `.raw` suffix to `.mzML`. -/
def rawExtSub (raw : String) : String :=
  if ".raw".toList.isSuffixOf (pyLower raw).toList then
    String.mk (raw.toList.take (raw.toList.length - 4)) ++ ".mzML"
  else raw

/-- Error-propagating map over a list, in order (the per-row loop of a
    writer: the first raised exception aborts). -/
def mapExcept {α β : Type} (f : α → Except PyError β) : List α → Except PyError (List β)
  | [] => .ok []
  | a :: t =>
    match f a with
    | .error e => .error e
    | .ok b =>
      match mapExcept f t with
      | .error e => .error e
      | .ok bs => .ok (b :: bs)

/-- One iteration of the file-table loop of
    `writeTwoTableExperimentalDesign`: fraction-group numbering from the
    source offsets, label normalisation, and raw-extension rewriting. -/
def twoTableFileCompute (snl : List String) (reps : List (String × Int))
    (f2rep f2label f2fraction : List (String × String)) (keepRaw : Bool) (row : Row) :
    Except PyError FileRow :=
  match dictGet f2rep row.dataFile with
  | none => .error .keyError
  | some repStr =>
    match listIndex snl row.sourceName with
    | none => .error .valueError
    | some idx =>
      match offsetFor snl reps idx with
      | .error e => .error e
      | .ok off =>
        match pyInt repStr with
        | none => .error .valueError
        | some rep =>
          let fg := toString (off + rep)
          let sample := fg
          match dictGet f2label row.dataFile with
          | none => .error .keyError
          | some label0 =>
            let label := if strContains label0 "label free sample" then "1" else label0
            let out := if keepRaw then row.dataFile else rawExtSub row.dataFile
            match dictGet f2fraction row.dataFile with
            | none => .error .keyError
            | some frac => .ok ⟨fg, frac, out, label, sample⟩

/-- The file-level table of the two-table design. -/
def twoTableFileRows (snl : List String) (reps : List (String × Int))
    (f2rep f2label f2fraction : List (String × String)) (keepRaw : Bool) (rows : List Row) :
    Except PyError (List FileRow) :=
  mapExcept (twoTableFileCompute snl reps f2rep f2label f2fraction keepRaw) rows

/-- One iteration of the sample-table loop of
    `writeTwoTableExperimentalDesign`: the same fraction-group number is the
    sample id and the bio-replicate id, and the condition is the stored
    combined factors unless the substring `none` occurs in them, in which
    case the sample id is substituted. -/
def twoTableSampleCompute (snl : List String) (reps : List (String × Int))
    (f2rep f2combined : List (String × String)) (row : Row) :
    Except PyError SampleRow :=
  match dictGet f2rep row.dataFile with
  | none => .error .keyError
  | some repStr =>
    match listIndex snl row.sourceName with
    | none => .error .valueError
    | some idx =>
      match offsetFor snl reps idx with
      | .error e => .error e
      | .ok off =>
        match pyInt repStr with
        | none => .error .valueError
        | some rep =>
          let sample := toString (off + rep)
          match dictGet f2combined row.dataFile with
          | none => .error .keyError
          | some cf =>
            .ok ⟨sample, if strContains cf "none" then sample else cf, sample⟩

/-- The `sample not in sample_row_written` filter: keep the first row for
    each sample id, suppress later duplicates. -/
def dedupBySampleAux : List SampleRow → List String → List SampleRow
  | [], _ => []
  | r :: t, written =>
    if r.sample ∈ written then dedupBySampleAux t written
    else r :: dedupBySampleAux t (written ++ [r.sample])

/-- The sample-level table of the two-table design. The source computes each
    row and filters against `sample_row_written` in one pass; since the
    computation never reads `sample_row_written`, that single pass equals
    computing all rows in order and then filtering. -/
def twoTableSampleRows (snl : List String) (reps : List (String × Int))
    (f2rep f2combined : List (String × String)) (rows : List Row) :
    Except PyError (List SampleRow) :=
  match mapExcept (twoTableSampleCompute snl reps f2rep f2combined) rows with
  | .error e => .error e
  | .ok crs => .ok (dedupBySampleAux crs [])

/-- One iteration of the `writeOneTableExperimentalDesign` loop; the
    `legacy` flag decides whether the redundant `Sample` column is emitted. -/
def oneTableCompute (snl : List String) (reps : List (String × Int))
    (f2rep f2combined f2label f2fraction : List (String × String))
    (legacy keepRaw : Bool) (row : Row) : Except PyError OneTableRow :=
  match dictGet f2rep row.dataFile with
  | none => .error .keyError
  | some repStr =>
    match listIndex snl row.sourceName with
    | none => .error .valueError
    | some idx =>
      match offsetFor snl reps idx with
      | .error e => .error e
      | .ok off =>
        match pyInt repStr with
        | none => .error .valueError
        | some rep =>
          let fg := toString (off + rep)
          let sample := fg
          match dictGet f2combined row.dataFile with
          | none => .error .keyError
          | some cf =>
            let condition := if strContains cf "none" then sample else cf
            match dictGet f2label row.dataFile with
            | none => .error .keyError
            | some label0 =>
              let label := if strContains label0 "label free sample" then "1" else label0
              let out := if keepRaw then row.dataFile else rawExtSub row.dataFile
              match dictGet f2fraction row.dataFile with
              | none => .error .keyError
              | some frac =>
                .ok ⟨fg, frac, out, label, if legacy then some sample else none,
                     condition, sample⟩

/-- The one-table design. -/
def oneTableRows (snl : List String) (reps : List (String × Int))
    (f2rep f2combined f2label f2fraction : List (String × String))
    (legacy keepRaw : Bool) (rows : List Row) : Except PyError (List OneTableRow) :=
  mapExcept (oneTableCompute snl reps f2rep f2combined f2label f2fraction legacy keepRaw) rows

/-! ### Concrete inputs used by the example-level theorems below -/

/-- A concrete column-to-values table: characteristic `c1` duplicates factor
    `f1`, characteristic `c2` does not. -/
def c8ExampleCol : String → List String :=
  fun n => if n = "c1" then ["x", "y"] else if n = "f1" then ["x", "y"] else ["q", "r"]

/-- A well-formed input row with the given data file, source name and
    technical replicate, used to build concrete runs. -/
def mkExampleRow (f src trep : String) : Row :=
  { dataFile := f, sourceName := src, mods := [], pcTol := some "10 ppm",
    fragTol := some "20 ppm", dissMethod := some "NT=HCD;AC=X", techRep := some trep,
    fraction := some "1", cleavage := "NT=Trypsin;AC=Y", label := "NT=label free sample;AC=Z",
    factorVals := ["cond1"], characteristicVals := [] }

/-- The scenario of the fraction-group claim: sources `A` (replicates 1, 2),
    `B` (replicate 1) and `C` (replicates 1, 2, 3), encountered in that
    order. -/
def exampleRows : List Row :=
  [mkExampleRow "f1.raw" "A" "1", mkExampleRow "f2.raw" "A" "2",
   mkExampleRow "f3.raw" "B" "1", mkExampleRow "f4.raw" "C" "1",
   mkExampleRow "f5.raw" "C" "2", mkExampleRow "f6.raw" "C" "3"]

/-- The extraction state of the example run (the error arm is never taken;
    the first theorem about this run asserts the `.ok` outcome). -/
def exampleState : ExtractState :=
  match openms_convert_extract (fun _ => none) F2CState.classInit exampleRows with
  | .ok st => st
  | .error _ => ⟨F2CState.classInit, [], [], []⟩

/-- The file-level two-table rows of the example run, invoked as
    `openms_convert` does: on the same rows, with the extracted maps and
    the default `keep_raw = False`. -/
def exampleFileRows : Except PyError (List FileRow) :=
  twoTableFileRows exampleState.snl exampleState.reps
    exampleState.f2c.file2technical_rep exampleState.f2c.file2label
    exampleState.f2c.file2fraction false exampleRows

/-- A row whose only omission is the technical-replicate column; every other
    consulted field is present and well-formed. -/
def rowNoTechRep : Row :=
  { dataFile := "f1.raw", sourceName := "S", mods := [], pcTol := some "10 ppm",
    fragTol := some "20 ppm", dissMethod := some "NT=HCD;AC=X", techRep := none,
    fraction := some "2", cleavage := "NT=Trypsin;AC=Y", label := "NT=lbl;AC=Z",
    factorVals := ["fv"], characteristicVals := [] }

/-- First run of the class-state persistence scenario: one file `f1.raw`. -/
def persistRows1 : List Row := [mkExampleRow "f1.raw" "A" "1"]

/-- Second run of the class-state persistence scenario: a different file. -/
def persistRows2 : List Row := [mkExampleRow "f2.raw" "B" "1"]

/-- Class state after the first persistence run (the error arm is never
    taken; the persistence witness asserts the `.ok` outcome). -/
def persistState1 : ExtractState :=
  match openms_convert_extract (fun _ => none) F2CState.classInit persistRows1 with
  | .ok st => st
  | .error _ => ⟨F2CState.classInit, [], [], []⟩

/-- Class state after the second persistence run, started — as in the
    source — by constructing `FileToColumnEntries()` over the class state
    left behind by the first run. -/
def persistState2 : ExtractState :=
  match openms_convert_extract (fun _ => none) persistState1.f2c persistRows2 with
  | .ok st => st
  | .error _ => ⟨F2CState.classInit, [], [], []⟩

/-! ### Supporting lemmas -/

theorem ppResolve_error_eq {m : String} {e : PyError} (h : ppResolve m = .error e) :
    e = .attributeError := by
  unfold ppResolve at h
  split at h
  · exact absurd h (by simp)
  · cases hpp : reSearchTag "PP=" m <;> rw [hpp] at h <;> simp_all

theorem processModBody_error_eq {lookup : String → Option String} {m : String}
    {st : IfyState} {e : PyError} (h : processModBody lookup m st = .error e) :
    e = .attributeError ∨ e = .unboundLocalError := by
  unfold processModBody at h
  split at h
  · exact Or.inl (Except.error.inj h).symm
  · split at h
    · exact Or.inl (Except.error.inj h).symm
    · split at h
      · next e' hpp =>
        exact Or.inl ((Except.error.inj h).symm.trans (ppResolve_error_eq hpp))
      · split at h
        · exact Or.inr (Except.error.inj h).symm
        · exact absurd h (by simp)

theorem processMod_marker_false {lookup : String → Option String} {m : String}
    (st : IfyState) (hm : hasAuthorityMarker m = false) :
    processMod lookup m st =
      .error (.unsupportedAuthority ("only UNIMOD modifications supported. " ++ m)) := by
  unfold processMod
  unfold hasAuthorityMarker at hm
  rw [Bool.or_eq_false_iff] at hm
  simp [hm.1, hm.2]

theorem processMod_marker_true {lookup : String → Option String} {m : String}
    (st : IfyState) (hm : hasAuthorityMarker m = true) :
    processMod lookup m st = processModBody lookup m st := by
  unfold processMod
  unfold hasAuthorityMarker at hm
  rw [Bool.or_eq_true] at hm
  rcases hm with hm | hm <;> simp [hm]

/-- Characterization of the unsupported-authority failure of the
    `openms_ify_mods` loop: it is raised for `m` exactly when the input
    splits as `pre ++ m :: post` with `m` lacking both accepted authority
    markers and the whole prefix `pre` processing without an exception. -/
theorem runMods_unsupported_iff (lookup : String → Option String) (mods : List String)
    (st0 : IfyState) (msg : String) :
    runMods lookup mods st0 = .error (.unsupportedAuthority msg) ↔
      ∃ pre m post st1, mods = pre ++ m :: post ∧ hasAuthorityMarker m = false ∧
        msg = "only UNIMOD modifications supported. " ++ m ∧
        runMods lookup pre st0 = .ok st1 := by
  induction mods generalizing st0 with
  | nil =>
    simp only [runMods]
    constructor
    · intro h; exact absurd h (by simp)
    · rintro ⟨pre, m, post, st1, habs, -⟩
      exact absurd habs (by simp)
  | cons a t ih =>
    cases hm : hasAuthorityMarker a with
    | false =>
      rw [show runMods lookup (a :: t) st0 = (processMod lookup a st0).bind (runMods lookup t)
            from rfl, processMod_marker_false st0 hm]
      constructor
      · intro h
        simp only [Except.bind, Except.error.injEq, PyError.unsupportedAuthority.injEq] at h
        exact ⟨[], a, t, st0, rfl, hm, h.symm, rfl⟩
      · rintro ⟨pre, m, post, st1, hsplit, hmark, hmsg, hpre⟩
        cases pre with
        | nil =>
          simp only [List.nil_append, List.cons.injEq] at hsplit
          simp [Except.bind, hmsg, hsplit.1]
        | cons p pt =>
          simp only [List.cons_append, List.cons.injEq] at hsplit
          rw [show runMods lookup (p :: pt) st0 = (processMod lookup p st0).bind (runMods lookup pt)
                from rfl, ← hsplit.1, processMod_marker_false st0 hm] at hpre
          exact absurd hpre (by simp [Except.bind])
    | true =>
      rw [show runMods lookup (a :: t) st0 = (processMod lookup a st0).bind (runMods lookup t)
            from rfl, processMod_marker_true st0 hm]
      cases hbody : processModBody lookup a st0 with
      | error e =>
        constructor
        · intro h
          simp only [Except.bind, Except.error.injEq] at h
          rcases processModBody_error_eq hbody with he | he <;> simp [he] at h
        · rintro ⟨pre, m, post, st1, hsplit, hmark, hmsg, hpre⟩
          cases pre with
          | nil =>
            simp only [List.nil_append, List.cons.injEq] at hsplit
            rw [hsplit.1] at hm
            rw [hm] at hmark; exact absurd hmark (by simp)
          | cons p pt =>
            simp only [List.cons_append, List.cons.injEq] at hsplit
            rw [show runMods lookup (p :: pt) st0 = (processMod lookup p st0).bind (runMods lookup pt)
                  from rfl, ← hsplit.1, processMod_marker_true st0 hm, hbody] at hpre
            exact absurd hpre (by simp [Except.bind])
      | ok st' =>
        simp only [Except.bind]
        rw [ih st']
        constructor
        · rintro ⟨pre, m, post, st1, hsplit, hmark, hmsg, hpre⟩
          refine ⟨a :: pre, m, post, st1, by simp [hsplit], hmark, hmsg, ?_⟩
          rw [show runMods lookup (a :: pre) st0 = (processMod lookup a st0).bind (runMods lookup pre)
                from rfl, processMod_marker_true st0 hm, hbody]
          simpa [Except.bind] using hpre
        · rintro ⟨pre, m, post, st1, hsplit, hmark, hmsg, hpre⟩
          cases pre with
          | nil =>
            simp only [List.nil_append, List.cons.injEq] at hsplit
            rw [hsplit.1] at hm
            rw [hm] at hmark; exact absurd hmark (by simp)
          | cons p pt =>
            simp only [List.cons_append, List.cons.injEq] at hsplit
            rw [show runMods lookup (p :: pt) st0 = (processMod lookup p st0).bind (runMods lookup pt)
                  from rfl, ← hsplit.1, processMod_marker_true st0 hm, hbody] at hpre
            simp only [Except.bind] at hpre
            exact ⟨pt, m, post, st1, hsplit.2, hmark, hmsg, hpre⟩

theorem dictGet_dictSet_self {β : Type} (d : List (String × β)) (k : String) (v : β) :
    dictGet (dictSet d k v) k = some v := by
  induction d with
  | nil => simp [dictSet, dictGet]
  | cons hd t ih =>
    obtain ⟨k', v'⟩ := hd
    by_cases hk : k' = k
    · simp [dictSet, dictGet, hk]
    · simp [dictSet, dictGet, hk, ih]

theorem dictGet_dictSet_ne {β : Type} (d : List (String × β)) {k k' : String} (v : β)
    (h : k ≠ k') : dictGet (dictSet d k' v) k = dictGet d k := by
  induction d with
  | nil => simp [dictSet, dictGet, Ne.symm h]
  | cons hd t ih =>
    obtain ⟨k0, v0⟩ := hd
    by_cases hk : k0 = k'
    · subst hk
      simp [dictSet, dictGet, Ne.symm h]
    · by_cases hk2 : k0 = k <;> simp [dictSet, dictGet, hk, hk2, h, ih]

theorem take_succ_of_get? {α : Type} :
    ∀ (l : List α) (n : Nat) (x : α), l.get? n = some x → l.take (n + 1) = l.take n ++ [x] := by
  intro l
  induction l with
  | nil => intro n x h; simp [List.get?] at h
  | cons hd t ih =>
    intro n x h
    cases n with
    | zero =>
      simp only [List.get?] at h
      rw [Option.some.inj h]
      simp
    | succ m =>
      simp only [List.get?] at h
      simp [List.take_succ_cons, ih m x h]

theorem offsetFor_eq_sum (snl : List String) (reps : List (String × Int)) :
    ∀ (idx : Nat) (off : Int), offsetFor snl reps idx = .ok off →
      off = (((snl.take idx).map (fun s => (dictGet reps s).getD 0)).sum : Int) := by
  intro idx
  induction idx with
  | zero =>
    intro off h
    simp only [offsetFor] at h
    simp only [List.take_zero, List.map_nil, List.sum_nil]
    exact (Except.ok.inj h).symm
  | succ n ih =>
    intro off h
    simp only [offsetFor] at h
    split at h
    · exact absurd h (by simp)
    · next acc hacc =>
      split at h
      · exact absurd h (by simp)
      · next s hs =>
        split at h
        · exact absurd h (by simp)
        · next r hr =>
          have hoff : off = acc + r := (Except.ok.inj h).symm
          rw [take_succ_of_get? snl n s hs]
          simp only [List.map_append, List.map_cons, List.map_nil,
            List.sum_append, List.sum_cons, List.sum_nil, add_zero]
          rw [hoff, ih acc hacc, hr]
          simp

theorem dedupBySample_sample_notin :
    ∀ (l : List SampleRow) (w : List String) (r : SampleRow),
      r ∈ dedupBySampleAux l w → r.sample ∉ w := by
  intro l
  induction l with
  | nil => intro w r h; simp [dedupBySampleAux] at h
  | cons a t ih =>
    intro w r h
    unfold dedupBySampleAux at h
    split at h
    · exact ih w r h
    · next hnotin =>
      rcases List.mem_cons.mp h with rfl | h2
      · exact hnotin
      · intro hw
        exact ih _ r h2 (List.mem_append_left _ hw)

theorem dedupBySample_mem_iff :
    ∀ (l : List SampleRow) (w : List String) (s : String),
      (∃ r ∈ dedupBySampleAux l w, r.sample = s) ↔ (∃ r ∈ l, r.sample = s) ∧ s ∉ w := by
  intro l
  induction l with
  | nil => intro w s; simp [dedupBySampleAux]
  | cons a t ih =>
    intro w s
    unfold dedupBySampleAux
    split
    · next hmem =>
      rw [ih w s]
      constructor
      · rintro ⟨⟨r, hr, hs⟩, hnw⟩
        exact ⟨⟨r, List.mem_cons_of_mem a hr, hs⟩, hnw⟩
      · rintro ⟨⟨r, hr, hs⟩, hnw⟩
        rcases List.mem_cons.mp hr with rfl | hr2
        · exact absurd (hs ▸ hmem) hnw
        · exact ⟨⟨r, hr2, hs⟩, hnw⟩
    · next hnotin =>
      constructor
      · rintro ⟨r, hr, hs⟩
        rcases List.mem_cons.mp hr with rfl | hr2
        · exact ⟨⟨r, List.mem_cons_self r t, hs⟩, hs ▸ hnotin⟩
        · obtain ⟨⟨r', hr', hs'⟩, hnw⟩ := (ih _ s).mp ⟨r, hr2, hs⟩
          refine ⟨⟨r', List.mem_cons_of_mem a hr', hs'⟩, fun hw => hnw ?_⟩
          exact List.mem_append_left _ hw
      · rintro ⟨⟨r, hr, hs⟩, hnw⟩
        rcases List.mem_cons.mp hr with rfl | hr2
        · exact ⟨r, List.mem_cons_self _ _, hs⟩
        · by_cases hsa : s = a.sample
          · exact ⟨a, List.mem_cons_self _ _, hsa.symm⟩
          · have := (ih (w ++ [a.sample]) s).mpr
              ⟨⟨r, hr2, hs⟩, by
                intro hw
                rcases List.mem_append.mp hw with h1 | h1
                · exact hnw h1
                · exact hsa (List.mem_singleton.mp h1)⟩
            obtain ⟨r', hr', hs'⟩ := this
            exact ⟨r', List.mem_cons_of_mem a hr', hs'⟩

theorem dedupBySample_nodup :
    ∀ (l : List SampleRow) (w : List String),
      ((dedupBySampleAux l w).map SampleRow.sample).Nodup := by
  intro l
  induction l with
  | nil => intro w; simp [dedupBySampleAux]
  | cons a t ih =>
    intro w
    unfold dedupBySampleAux
    split
    · exact ih w
    · refine List.Nodup.cons ?_ (ih (w ++ [a.sample]))
      intro hmem
      obtain ⟨r, hr, hs⟩ := List.mem_map.mp hmem
      exact dedupBySample_sample_notin t (w ++ [a.sample]) r hr
        (List.mem_append_right _ (hs ▸ List.mem_singleton_self a.sample))

theorem dedupBySample_first :
    ∀ (l : List SampleRow) (w : List String) (r : SampleRow),
      r ∈ dedupBySampleAux l w →
      ∃ pre post, l = pre ++ r :: post ∧ ∀ r' ∈ pre, r'.sample ≠ r.sample := by
  intro l
  induction l with
  | nil => intro w r h; simp [dedupBySampleAux] at h
  | cons a t ih =>
    intro w r h
    unfold dedupBySampleAux at h
    split at h
    · next hmem =>
      obtain ⟨pre, post, hsplit, hpre⟩ := ih w r h
      refine ⟨a :: pre, post, by simp [hsplit], ?_⟩
      intro r' hr'
      rcases List.mem_cons.mp hr' with rfl | hr2
      · have := dedupBySample_sample_notin t w r h
        intro hEq
        exact this (hEq ▸ hmem)
      · exact hpre r' hr2
    · next hnotin =>
      rcases List.mem_cons.mp h with rfl | h2
      · exact ⟨[], t, rfl, by simp⟩
      · obtain ⟨pre, post, hsplit, hpre⟩ := ih _ r h2
        refine ⟨a :: pre, post, by simp [hsplit], ?_⟩
        intro r' hr'
        rcases List.mem_cons.mp hr' with rfl | hr2
        · have := dedupBySample_sample_notin t (w ++ [r'.sample]) r h2
          intro hEq
          exact this (List.mem_append_right _ (by simp [hEq]))
        · exact hpre r' hr2

theorem rrcInner_snd_isSome (col : String → List String) (c : String) :
    ∀ (factors : List String) (acc : List String × Option String),
      acc.2.isSome = true → ((rrcInner col c factors acc).2).isSome = true := by
  intro factors
  induction factors with
  | nil => intro acc h; exact h
  | cons fc t ih => intro acc h; exact ih _ rfl

theorem rrcInner_snd_of_ne_nil (col : String → List String) (c : String)
    (factors : List String) (h : factors ≠ []) (acc : List String × Option String) :
    ((rrcInner col c factors acc).2).isSome = true := by
  cases factors with
  | nil => exact absurd rfl h
  | cons fc t => exact rrcInner_snd_isSome col c t _ rfl

theorem rrcOuter_snd_isSome_of (col : String → List String) (factors : List String) :
    ∀ (chars : List String) (acc : List String × Option String),
      acc.2.isSome = true → ((rrcOuter col factors chars acc).2).isSome = true := by
  intro chars
  induction chars with
  | nil => intro acc h; exact h
  | cons c t ih =>
    intro acc h
    exact ih _ (rrcInner_snd_isSome col c factors acc h)

theorem rrcOuter_snd_isSome (col : String → List String) (factors : List String)
    (hf : factors ≠ []) (chars : List String) (acc : List String × Option String)
    (hc : chars ≠ []) : ((rrcOuter col factors chars acc).2).isSome = true := by
  cases chars with
  | nil => exact absurd rfl hc
  | cons c t =>
    simp only [rrcOuter]
    exact rrcOuter_snd_isSome_of col factors t _ (rrcInner_snd_of_ne_nil col c factors hf acc)

theorem rrcInner_fst_mem (col : String → List String) (c : String) :
    ∀ (factors red : List String) (f : Option String) (x : String),
      x ∈ (rrcInner col c factors (red, f)).1 ↔
        x ∈ red ∨ (x = c ∧ ∃ fc ∈ factors, col c = col fc) := by
  intro factors
  induction factors with
  | nil => intro red f x; simp [rrcInner]
  | cons fc t ih =>
    intro red f x
    simp only [rrcInner]
    by_cases hcond : col c = col fc ∧ c ∉ red
    · rw [if_pos hcond, ih]
      constructor
      · rintro (hx | ⟨rfl, fc', hfc', hcol⟩)
        · rcases List.mem_append.mp hx with hx | hx
          · exact Or.inl hx
          · exact Or.inr ⟨List.mem_singleton.mp hx, fc, List.mem_cons_self _ _, hcond.1⟩
        · exact Or.inr ⟨rfl, fc', List.mem_cons_of_mem fc hfc', hcol⟩
      · rintro (hx | ⟨rfl, fc', hfc', hcol⟩)
        · exact Or.inl (List.mem_append_left _ hx)
        · exact Or.inl (List.mem_append_right _ (List.mem_singleton_self _))
    · rw [if_neg hcond, ih]
      constructor
      · rintro (hx | ⟨rfl, fc', hfc', hcol⟩)
        · exact Or.inl hx
        · exact Or.inr ⟨rfl, fc', List.mem_cons_of_mem fc hfc', hcol⟩
      · rintro (hx | ⟨rfl, fc', hfc', hcol⟩)
        · exact Or.inl hx
        · rcases List.mem_cons.mp hfc' with rfl | hfc2
          · rcases not_and_or.mp hcond with hne | hmem
            · exact absurd hcol hne
            · exact Or.inl (not_not.mp hmem)
          · exact Or.inr ⟨rfl, fc', hfc2, hcol⟩

theorem rrcOuter_fst_mem (col : String → List String) (factors : List String) :
    ∀ (chars : List String) (acc : List String × Option String) (x : String),
      x ∈ (rrcOuter col factors chars acc).1 ↔
        x ∈ acc.1 ∨ (x ∈ chars ∧ ∃ fc ∈ factors, col x = col fc) := by
  intro chars
  induction chars with
  | nil => intro acc x; simp [rrcOuter]
  | cons c t ih =>
    intro acc x
    obtain ⟨red, f⟩ := acc
    simp only [rrcOuter]
    rw [ih (rrcInner col c factors (red, f)) x, rrcInner_fst_mem col c factors red f x]
    constructor
    · rintro ((hx | ⟨rfl, hfc⟩) | ⟨hxt, hfc⟩)
      · exact Or.inl hx
      · exact Or.inr ⟨List.mem_cons_self _ _, hfc⟩
      · exact Or.inr ⟨List.mem_cons_of_mem _ hxt, hfc⟩
    · rintro (hx | ⟨hxc, hfc⟩)
      · exact Or.inl (Or.inl hx)
      · rcases List.mem_cons.mp hxc with rfl | hxt
        · exact Or.inl (Or.inr ⟨rfl, hfc⟩)
        · exact Or.inr ⟨hxt, hfc⟩

theorem mapsAgreeAt_refl (k : String) (a : F2CState) : mapsAgreeAt k a a :=
  ⟨rfl, rfl, rfl, rfl, rfl, rfl, rfl, rfl, rfl, rfl, rfl, rfl⟩

theorem mapsAgreeAt_trans {k : String} {a b c : F2CState}
    (h1 : mapsAgreeAt k a b) (h2 : mapsAgreeAt k b c) : mapsAgreeAt k a c := by
  obtain ⟨a1, a2, a3, a4, a5, a6, a7, a8, a9, a10, a11, a12⟩ := h1
  obtain ⟨b1, b2, b3, b4, b5, b6, b7, b8, b9, b10, b11, b12⟩ := h2
  exact ⟨a1.trans b1, a2.trans b2, a3.trans b3, a4.trans b4, a5.trans b5, a6.trans b6,
    a7.trans b7, a8.trans b8, a9.trans b9, a10.trans b10, a11.trans b11, a12.trans b12⟩

theorem stepMods_agree {lookup : String → Option String} {row : Row} {st st' : ExtractState}
    (h : stepMods lookup row st = .ok st') {k : String} (hk : k ≠ row.dataFile) :
    mapsAgreeAt k st'.f2c st.f2c := by
  unfold stepMods at h
  split at h
  · exact absurd h (by simp)
  · split at h
    · exact absurd h (by simp)
    · simp only [Except.ok.injEq] at h
      rw [← h]
      exact ⟨dictGet_dictSet_ne _ _ hk, rfl, rfl, rfl, rfl, rfl, rfl, rfl, rfl, rfl, rfl, rfl⟩

theorem stepSource_agree (row : Row) (st : ExtractState) {k : String}
    (hk : k ≠ row.dataFile) : mapsAgreeAt k (stepSource row st).f2c st.f2c := by
  unfold stepSource
  exact ⟨rfl, rfl, rfl, rfl, rfl, rfl, rfl, rfl, rfl, dictGet_dictSet_ne _ _ hk, rfl, rfl⟩

theorem stepPcTol_agree {row : Row} {st st' : ExtractState}
    (h : stepPcTol row st = .ok st') {k : String} (hk : k ≠ row.dataFile) :
    mapsAgreeAt k st'.f2c st.f2c := by
  unfold stepPcTol at h
  split at h
  · exact absurd h (by simp)
  · simp only [Except.ok.injEq] at h
    rw [← h]
    exact ⟨rfl, dictGet_dictSet_ne _ _ hk, dictGet_dictSet_ne _ _ hk, rfl, rfl, rfl, rfl,
      rfl, rfl, rfl, rfl, rfl⟩

theorem stepFragTol_agree {row : Row} {st st' : ExtractState}
    (h : stepFragTol row st = .ok st') {k : String} (hk : k ≠ row.dataFile) :
    mapsAgreeAt k st'.f2c st.f2c := by
  unfold stepFragTol at h
  split at h
  · exact absurd h (by simp)
  · simp only [Except.ok.injEq] at h
    rw [← h]
    exact ⟨rfl, rfl, rfl, dictGet_dictSet_ne _ _ hk, dictGet_dictSet_ne _ _ hk, rfl, rfl,
      rfl, rfl, rfl, rfl, rfl⟩

theorem stepDiss_agree {row : Row} {st st' : ExtractState}
    (h : stepDiss row st = .ok st') {k : String} (hk : k ≠ row.dataFile) :
    mapsAgreeAt k st'.f2c st.f2c := by
  unfold stepDiss at h
  split at h
  · exact absurd h (by simp)
  · simp only [Except.ok.injEq] at h
    rw [← h]
    exact ⟨rfl, rfl, rfl, rfl, rfl, dictGet_dictSet_ne _ _ hk, rfl, rfl, rfl, rfl, rfl, rfl⟩

theorem stepTechRep_agree {row : Row} {st st' : ExtractState}
    (h : stepTechRep row st = .ok st') {k : String} (hk : k ≠ row.dataFile) :
    mapsAgreeAt k st'.f2c st.f2c := by
  unfold stepTechRep at h
  split at h
  · exact absurd h (by simp)
  · simp only [Except.ok.injEq] at h
    rw [← h]
    exact ⟨rfl, rfl, rfl, rfl, rfl, rfl, rfl, rfl, rfl, rfl, rfl, dictGet_dictSet_ne _ _ hk⟩

theorem stepEnzyme_agree {row : Row} {st st' : ExtractState}
    (h : stepEnzyme row st = .ok st') {k : String} (hk : k ≠ row.dataFile) :
    mapsAgreeAt k st'.f2c st.f2c := by
  unfold stepEnzyme at h
  split at h
  · exact absurd h (by simp)
  · simp only [Except.ok.injEq] at h
    rw [← h]
    exact ⟨rfl, rfl, rfl, rfl, rfl, rfl, dictGet_dictSet_ne _ _ hk, rfl, rfl, rfl, rfl, rfl⟩

theorem stepFraction_agree (row : Row) (st : ExtractState) {k : String}
    (hk : k ≠ row.dataFile) : mapsAgreeAt k (stepFraction row st).f2c st.f2c := by
  unfold stepFraction
  exact ⟨rfl, rfl, rfl, rfl, rfl, rfl, rfl, dictGet_dictSet_ne _ _ hk, rfl, rfl, rfl, rfl⟩

theorem stepLabel_agree {row : Row} {st st' : ExtractState}
    (h : stepLabel row st = .ok st') {k : String} (hk : k ≠ row.dataFile) :
    mapsAgreeAt k st'.f2c st.f2c := by
  unfold stepLabel at h
  split at h
  · exact absurd h (by simp)
  · simp only [Except.ok.injEq] at h
    rw [← h]
    exact ⟨rfl, rfl, rfl, rfl, rfl, rfl, rfl, rfl, dictGet_dictSet_ne _ _ hk, rfl, rfl, rfl⟩

theorem stepFactors_agree (row : Row) (st : ExtractState) {k : String}
    (hk : k ≠ row.dataFile) : mapsAgreeAt k (stepFactors row st).f2c st.f2c := by
  unfold stepFactors
  exact ⟨rfl, rfl, rfl, rfl, rfl, rfl, rfl, rfl, rfl, rfl, dictGet_dictSet_ne _ _ hk, rfl⟩

theorem extractRow_agree {lookup : String → Option String} {row : Row}
    {st st' : ExtractState} (h : extractRow lookup st row = .ok st') {k : String}
    (hk : k ≠ row.dataFile) : mapsAgreeAt k st'.f2c st.f2c := by
  unfold extractRow at h
  split at h
  · exact absurd h (by simp)
  · next st1 h1 =>
    split at h
    · exact absurd h (by simp)
    · next st3 h3 =>
      split at h
      · exact absurd h (by simp)
      · next st4 h4 =>
        split at h
        · exact absurd h (by simp)
        · next st5 h5 =>
          split at h
          · exact absurd h (by simp)
          · next st6 h6 =>
            split at h
            · exact absurd h (by simp)
            · next st7 h7 =>
              split at h
              · exact absurd h (by simp)
              · next st9 h9 =>
                simp only [Except.ok.injEq] at h
                rw [← h]
                have a1 := stepMods_agree h1 hk
                have a2 := mapsAgreeAt_trans (stepSource_agree row st1 hk) a1
                have a3 := mapsAgreeAt_trans (stepPcTol_agree h3 hk) a2
                have a4 := mapsAgreeAt_trans (stepFragTol_agree h4 hk) a3
                have a5 := mapsAgreeAt_trans (stepDiss_agree h5 hk) a4
                have a6 := mapsAgreeAt_trans (stepTechRep_agree h6 hk) a5
                have a7 := mapsAgreeAt_trans (stepEnzyme_agree h7 hk) a6
                have a8 := mapsAgreeAt_trans (stepFraction_agree row st7 hk) a7
                have a9 := mapsAgreeAt_trans (stepLabel_agree h9 hk) a8
                exact mapsAgreeAt_trans (stepFactors_agree row st9 hk) a9

theorem extractAll_agree (lookup : String → Option String) :
    ∀ (rows : List Row) (st st' : ExtractState), extractAll lookup st rows = .ok st' →
      ∀ k, (∀ r ∈ rows, k ≠ r.dataFile) → mapsAgreeAt k st'.f2c st.f2c := by
  intro rows
  induction rows with
  | nil =>
    intro st st' h k _
    unfold extractAll at h
    simp only [Except.ok.injEq] at h
    rw [← h]
    exact mapsAgreeAt_refl k st.f2c
  | cons r t ih =>
    intro st st' h k hk
    unfold extractAll at h
    split at h
    · exact absurd h (by simp)
    · next st1 h1 =>
      exact mapsAgreeAt_trans
        (ih st1 st' h k fun r' hr' => hk r' (List.mem_cons_of_mem r hr'))
        (extractRow_agree h1 (hk r (List.mem_cons_self r t)))

/-! ### Claim theorems -/

/-- C1 (counterexample): the authority marker is NOT matched
    case-insensitively. The annotation `NT=Foo;AC=unimod:35;TA=S;` contains
    the marker `AC=UNIMOD` up to case, yet `openms_ify_mods` raises the fatal
    unsupported-authority error on it, so the claimed equivalence fails at
    this input. -/
theorem C1_counterexample :
    openms_ify_mods (fun _ => none) ["NT=Foo;AC=unimod:35;TA=S;"] =
        .error (.unsupportedAuthority
          "only UNIMOD modifications supported. NT=Foo;AC=unimod:35;TA=S;") ∧
      strContainsCI "NT=Foo;AC=unimod:35;TA=S;" "AC=UNIMOD" = true :=
  ⟨rfl, rfl⟩

/-- C1 (amended): `openms_ify_mods` fails with the fatal unsupported-authority
    error naming annotation `m` if and only if the input splits as
    `pre ++ m :: post` where `m` contains neither of the two exact-case
    markers `AC=UNIMOD` and `AC=Unimod` as a substring and every annotation
    of the prefix `pre` processes without an exception; the check depends on
    no other field of `m`. -/
theorem C1_amended_authority_iff (lookup : String → Option String) (mods : List String)
    (msg : String) :
    openms_ify_mods lookup mods = .error (.unsupportedAuthority msg) ↔
      ∃ pre m post st1, mods = pre ++ m :: post ∧
        strContains m "AC=UNIMOD" = false ∧ strContains m "AC=Unimod" = false ∧
        msg = "only UNIMOD modifications supported. " ++ m ∧
        runMods lookup pre ⟨[], none, []⟩ = .ok st1 := by
  unfold openms_ify_mods
  have hmap : ∀ (x : Except PyError IfyState),
      x.map (fun st => (String.intercalate "," st.oms, st.warnings)) =
          .error (.unsupportedAuthority msg) ↔
        x = .error (.unsupportedAuthority msg) := by
    intro x; cases x <;> simp [Except.map]
  rw [hmap, runMods_unsupported_iff]
  constructor
  · rintro ⟨pre, m, post, st1, hsplit, hmark, hmsg, hpre⟩
    unfold hasAuthorityMarker at hmark
    rw [Bool.or_eq_false_iff] at hmark
    exact ⟨pre, m, post, st1, hsplit, hmark.1, hmark.2, hmsg, hpre⟩
  · rintro ⟨pre, m, post, st1, hsplit, h1, h2, hmsg, hpre⟩
    exact ⟨pre, m, post, st1, hsplit, by simp [hasAuthorityMarker, h1, h2], hmsg, hpre⟩

/-- C3: the claim says an annotation with no `TA` tag and no inferable
    terminus is dropped with a warning while the other annotations are
    translated normally. The code does not drop it: the `pass` statement
    falls through, and `ta` (a Python local) is read at `ta.split(",")`.
    First conjunct: as the only annotation, the call crashes with
    `UnboundLocalError` instead of returning a string. Second conjunct: after
    a preceding annotation, the stale target site `S` of that annotation is
    silently reused, so the supposedly skipped `Beta` modification appears in
    the output as `Beta (S)`. -/
theorem C3_skip_does_not_skip :
    openms_ify_mods (fun _ => none) ["NT=Foo;AC=UNIMOD:35;PP=Anywhere;"] =
        .error .unboundLocalError ∧
      openms_ify_mods (fun _ => none)
          ["NT=Alpha;AC=UNIMOD:1;TA=S;", "NT=Beta;AC=UNIMOD:2;PP=Anywhere;"] =
        .ok ("Alpha (S),Beta (S)", [wNoTA, wSkip]) :=
  ⟨rfl, rfl⟩

/-- C4: under `PP=Any N-term` with target site `N-term`, the source compares
    the whole site list `aa` (a Python `list`) with the string `"N-term"`,
    which is always false, so the site-specific branch fires and the emitted
    descriptor is `Acetyl (N-term N-term)` instead of the claimed
    `Acetyl (N-term)`. The `C-term` side of the same branch compares the
    individual site token and behaves as claimed, as does the genuinely
    site-specific case. -/
theorem C4_any_nterm_defect :
    openms_ify_mods (fun _ => none) ["NT=Acetyl;AC=UNIMOD:1;PP=Any N-term;TA=N-term;"] =
        .ok ("Acetyl (N-term N-term)", []) ∧
      openms_ify_mods (fun _ => none) ["NT=X;AC=UNIMOD:2;PP=Any C-term;TA=C-term;"] =
        .ok ("X (C-term)", []) ∧
      openms_ify_mods (fun _ => none) ["NT=Q;AC=UNIMOD:5;PP=Any C-term;TA=K;"] =
        .ok ("Q (C-term K)", []) :=
  ⟨rfl, rfl, rfl⟩

/-- C10: an annotation that passes the authority gate (it contains
    `AC=UNIMOD`) but has no `NT` tag makes the name extraction return no
    match, and the call fails with an `AttributeError` (`.group(1)` on
    `None`) — an error distinct from the unsupported-authority exception —
    with no modification string returned and no warning recorded. -/
theorem C10_missing_nt_precondition :
    strContains "AC=UNIMOD:35" "AC=UNIMOD" = true ∧
      reSearchTag "NT=" "AC=UNIMOD:35" = none ∧
      openms_ify_mods (fun _ => none) ["AC=UNIMOD:35"] = .error .attributeError ∧
      (PyError.attributeError ==
        PyError.unsupportedAuthority "only UNIMOD modifications supported. AC=UNIMOD:35") = false :=
  ⟨rfl, rfl, rfl, rfl⟩

/-- C2: in the design writers, a file's fraction-group number is the string
    of `offset + technical replicate`, where the offset of the file's source
    is the sum of the stored maximum replicate numbers of all sources at
    earlier positions of the first-encountered source order (general part);
    and on the concrete run with sources `A` (2 replicates), `B`
    (1 replicate), `C` (3 replicates) encountered in that order, the
    extraction collects exactly that order with maxima 2, 1, 3, and the
    file table assigns fraction groups 1, 2 to `A`'s files, 3 to `B`'s file
    and 4, 5, 6 to `C`'s files. -/
theorem C2_fraction_group_numbering :
    (∀ (snl : List String) (reps : List (String × Int))
        (f2rep f2label f2fraction : List (String × String)) (keepRaw : Bool) (row : Row)
        (fr : FileRow),
        twoTableFileCompute snl reps f2rep f2label f2fraction keepRaw row = .ok fr →
        ∃ (idx : Nat) (repStr : String) (off rep : Int),
          dictGet f2rep row.dataFile = some repStr ∧
          listIndex snl row.sourceName = some idx ∧
          offsetFor snl reps idx = .ok off ∧
          pyInt repStr = some rep ∧
          off = (((snl.take idx).map (fun s => (dictGet reps s).getD 0)).sum : Int) ∧
          fr.fractionGroup = toString (off + rep)) ∧
      openms_convert_extract (fun _ => none) F2CState.classInit exampleRows = .ok exampleState ∧
      exampleState.snl = ["A", "B", "C"] ∧
      exampleState.reps = [("A", 2), ("B", 1), ("C", 3)] ∧
      exampleFileRows.map (fun l => l.map FileRow.fractionGroup) =
        .ok ["1", "2", "3", "4", "5", "6"] := by
  refine ⟨?_, by rfl, by rfl, by rfl, by rfl⟩
  intro snl reps f2rep f2label f2fraction keepRaw row fr hok
  unfold twoTableFileCompute at hok
  split at hok
  · exact absurd hok (by simp)
  · next repStr hrep =>
    split at hok
    · exact absurd hok (by simp)
    · next idx hidx =>
      split at hok
      · exact absurd hok (by simp)
      · next off hoff =>
        split at hok
        · exact absurd hok (by simp)
        · next rep hint =>
          split at hok
          · exact absurd hok (by simp)
          · next label0 hlabel =>
            refine ⟨idx, repStr, off, rep, hrep, hidx, hoff, hint,
              offsetFor_eq_sum snl reps idx off hoff, ?_⟩
            cases hfrac : dictGet f2fraction row.dataFile with
            | none => rw [hfrac] at hok; simp at hok
            | some frac =>
              rw [hfrac] at hok
              simp only [Except.ok.injEq] at hok
              rw [← hok]

/-- Witness for the general part of `C2_fraction_group_numbering`: source
    `B` at position 1 after `A` with stored maximum 2, replicate 1, yields
    fraction group `3`. -/
theorem C2_witness :
    ∃ (idx : Nat) (repStr : String) (off rep : Int),
      dictGet [("f.raw", "1")] "f.raw" = some repStr ∧
      listIndex ["A", "B"] "B" = some idx ∧
      offsetFor ["A", "B"] [("A", 2), ("B", 1)] idx = .ok off ∧
      pyInt repStr = some rep ∧
      off = (((["A", "B"].take idx).map
        (fun s => (dictGet [("A", (2 : Int)), ("B", 1)] s).getD 0)).sum : Int) ∧
      FileRow.fractionGroup ⟨"3", "1", "f.mzML", "L", "3"⟩ = toString (off + rep) :=
  C2_fraction_group_numbering.1 ["A", "B"] [("A", 2), ("B", 1)] [("f.raw", "1")]
    [("f.raw", "L")] [("f.raw", "1")] false
    ⟨"f.raw", "B", [], none, none, none, none, none, "", "", [], []⟩
    ⟨"3", "1", "f.mzML", "L", "3"⟩ (by rfl)

/-- C5 (counterexample): the design writers substitute the sample id for
    the condition whenever the substring `none` occurs in the stored
    combined-factor string — not only when the derivation produced the
    fallback sentinel. Here the derivation produces the genuine condition
    `nonexistent` (no sentinel, no warning), yet the emitted sample-table
    row carries the sample id `1` as its condition instead. -/
theorem C5_counterexample :
    combine_factors_to_conditions [] ["nonexistent"] = ("nonexistent", []) ∧
      twoTableSampleCompute ["S1"] [("S1", 1)] [("f.raw", "1")] [("f.raw", "nonexistent")]
          ⟨"f.raw", "S1", [], none, none, none, none, none, "", "", [], []⟩ =
        .ok ⟨"1", "1", "1"⟩ ∧
      ("nonexistent" == "none") = false ∧
      ("1" == "nonexistent") = false :=
  ⟨rfl, rfl, rfl, rfl⟩

/-- C5 (amended): in both design writers, the emitted condition equals the
    row's stored combined-factor string unless that string contains `none`
    as a substring — which covers the fallback sentinel `"none"` but also
    any genuine condition containing `none` — in which case the sample id
    (equal to the bio-replicate id) is substituted. -/
theorem C5_amended_condition_substitution :
    (∀ (snl : List String) (reps : List (String × Int))
        (f2rep f2combined : List (String × String)) (row : Row) (sr : SampleRow)
        (cf : String),
        twoTableSampleCompute snl reps f2rep f2combined row = .ok sr →
        dictGet f2combined row.dataFile = some cf →
        sr.condition = if strContains cf "none" then sr.sample else cf) ∧
      (∀ (snl : List String) (reps : List (String × Int))
          (f2rep f2combined f2label f2fraction : List (String × String))
          (legacy keepRaw : Bool) (row : Row) (orow : OneTableRow) (cf : String),
          oneTableCompute snl reps f2rep f2combined f2label f2fraction legacy keepRaw row =
            .ok orow →
          dictGet f2combined row.dataFile = some cf →
          orow.condition = if strContains cf "none" then orow.bioReplicate else cf) := by
  constructor
  · intro snl reps f2rep f2combined row sr cf hok hcf
    unfold twoTableSampleCompute at hok
    split at hok
    · exact absurd hok (by simp)
    · split at hok
      · exact absurd hok (by simp)
      · split at hok
        · exact absurd hok (by simp)
        · split at hok
          · exact absurd hok (by simp)
          · rw [hcf] at hok
            simp only [Except.ok.injEq] at hok
            rw [← hok]
  · intro snl reps f2rep f2combined f2label f2fraction legacy keepRaw row orow cf hok hcf
    unfold oneTableCompute at hok
    split at hok
    · exact absurd hok (by simp)
    · split at hok
      · exact absurd hok (by simp)
      · split at hok
        · exact absurd hok (by simp)
        · split at hok
          · exact absurd hok (by simp)
          · rw [hcf] at hok
            simp only [] at hok
            cases hlab : dictGet f2label row.dataFile with
            | none => rw [hlab] at hok; simp at hok
            | some label0 =>
              rw [hlab] at hok
              cases hfrac : dictGet f2fraction row.dataFile with
              | none => rw [hfrac] at hok; simp at hok
              | some frac =>
                rw [hfrac] at hok
                simp only [Except.ok.injEq] at hok
                rw [← hok]

/-- Witness for `C5_amended_condition_substitution`: a run whose derived
    condition is `cond1` (no `none` substring) keeps it, in both writers. -/
theorem C5_witness :
    SampleRow.condition ⟨"1", "cond1", "1"⟩ =
        (if strContains "cond1" "none" then SampleRow.sample ⟨"1", "cond1", "1"⟩ else "cond1") ∧
      OneTableRow.condition ⟨"1", "1", "f.mzML", "L", none, "cond1", "1"⟩ =
        (if strContains "cond1" "none" then
          OneTableRow.bioReplicate ⟨"1", "1", "f.mzML", "L", none, "cond1", "1"⟩ else "cond1") := by
  constructor
  · exact C5_amended_condition_substitution.1 ["S1"] [("S1", 1)] [("f.raw", "1")]
      [("f.raw", "cond1")] ⟨"f.raw", "S1", [], none, none, none, none, none, "", "", [], []⟩
      ⟨"1", "cond1", "1"⟩ "cond1" (by rfl) (by rfl)
  · exact C5_amended_condition_substitution.2 ["S1"] [("S1", 1)] [("f.raw", "1")]
      [("f.raw", "cond1")] [("f.raw", "L")] [("f.raw", "1")] false false
      ⟨"f.raw", "S1", [], none, none, none, none, none, "", "", [], []⟩
      ⟨"1", "1", "f.mzML", "L", none, "cond1", "1"⟩ "cond1" (by rfl) (by rfl)

/-- C6 (counterexample): a row whose only omission is the technical
    replicate gets the default `1` substituted but NO warning is recorded
    anywhere in the row's extraction, contradicting the claim that each
    defaulted field records a warning. -/
theorem C6_counterexample :
    (extractRow (fun _ => none) ⟨F2CState.classInit, [], [], []⟩ rowNoTechRep).map
        (fun st => (dictGet st.f2c.file2technical_rep "f1.raw", st.warnings)) =
      .ok (some "1", []) :=
  rfl

/-- C6 (amended): the tolerance and dissociation defaults each come with a
    warning — precursor tolerance missing → `10 ppm`, or containing neither
    `ppm` nor `Da` → `10 ppm`; fragment tolerance likewise → `20 ppm`;
    dissociation method missing → `HCD` — while a missing technical
    replicate or fraction identifier is defaulted to `1` silently: the
    respective blocks record no warning at all. -/
theorem C6_amended_defaults :
    pcTolValue none = .ok ("10", "ppm", [wNoPcTol]) ∧
      (∀ s, strContains s "ppm" = false → strContains s "Da" = false →
        pcTolValue (some s) = .ok ("10", "ppm", [wInvPcTol])) ∧
      fragTolValue none = .ok ("20", "ppm", [wNoFragTol]) ∧
      (∀ s, strContains s "ppm" = false → strContains s "Da" = false →
        fragTolValue (some s) = .ok ("20", "ppm", [wInvFragTol])) ∧
      dissValue none = .ok ("HCD", [wNoDiss]) ∧
      (∀ (row : Row) (st st' : ExtractState), row.techRep = none →
        stepTechRep row st = .ok st' →
        dictGet st'.f2c.file2technical_rep row.dataFile = some "1" ∧
          st'.warnings = st.warnings) ∧
      (∀ (row : Row) (st : ExtractState), row.fraction = none →
        dictGet (stepFraction row st).f2c.file2fraction row.dataFile = some "1" ∧
          (stepFraction row st).warnings = st.warnings) := by
  refine ⟨rfl, ?_, rfl, ?_, rfl, ?_, ?_⟩
  · intro s h1 h2
    unfold pcTolValue
    simp [h1, h2]
  · intro s h1 h2
    unfold fragTolValue
    simp [h1, h2]
  · intro row st st' h1 hok
    unfold stepTechRep at hok
    rw [h1] at hok
    simp only [techRepValue, show pyInt "1" = some 1 from rfl, Except.ok.injEq] at hok
    rw [← hok]
    exact ⟨dictGet_dictSet_self _ _ _, rfl⟩
  · intro row st h1
    unfold stepFraction
    rw [h1]
    exact ⟨dictGet_dictSet_self _ _ _, rfl⟩

/-- Witness for `C6_amended_defaults`: the unit-less tolerance `banana`
    triggers both `Invalid` defaults, and a row with a missing fraction
    identifier is defaulted without adding a warning. -/
theorem C6_witness :
    pcTolValue (some "banana") = .ok ("10", "ppm", [wInvPcTol]) ∧
      fragTolValue (some "banana") = .ok ("20", "ppm", [wInvFragTol]) ∧
      (∃ st', stepTechRep rowNoTechRep ⟨F2CState.classInit, [], [], []⟩ = .ok st' ∧
        dictGet st'.f2c.file2technical_rep "f1.raw" = some "1" ∧ st'.warnings = []) ∧
      (stepFraction ⟨"f.raw", "S", [], none, none, none, none, none, "", "", [], []⟩
          ⟨F2CState.classInit, [], [], []⟩).warnings = [] := by
  obtain ⟨-, h2, -, h4, -, h6, h7⟩ := C6_amended_defaults
  refine ⟨h2 "banana" rfl rfl, h4 "banana" rfl rfl, ⟨_, rfl, ?_⟩, ?_⟩
  · exact h6 rowNoTechRep ⟨F2CState.classInit, [], [], []⟩ _ rfl rfl
  · exact (h7 ⟨"f.raw", "S", [], none, none, none, none, none, "", "", [], []⟩
      ⟨F2CState.classInit, [], [], []⟩ rfl).2

/-- C7: the sample-level table of the two-table design, obtained from the
    computed per-row sample rows `crs` by the `sample_row_written` filter,
    contains pairwise-distinct sample ids, contains a sample id iff some
    file row produced it, and each emitted row is the one computed for the
    FIRST file row carrying its sample id (later duplicates suppressed). -/
theorem C7_sample_table_unique (snl : List String) (reps : List (String × Int))
    (f2rep f2combined : List (String × String)) (rows : List Row)
    (crs out : List SampleRow)
    (hcrs : mapExcept (twoTableSampleCompute snl reps f2rep f2combined) rows = .ok crs)
    (hout : twoTableSampleRows snl reps f2rep f2combined rows = .ok out) :
    out = dedupBySampleAux crs [] ∧
      ((out.map SampleRow.sample).Nodup) ∧
      (∀ s, (∃ r ∈ out, r.sample = s) ↔ ∃ r ∈ crs, r.sample = s) ∧
      (∀ r ∈ out, ∃ pre post, crs = pre ++ r :: post ∧
        ∀ r' ∈ pre, r'.sample ≠ r.sample) := by
  unfold twoTableSampleRows at hout
  rw [hcrs] at hout
  simp only [Except.ok.injEq] at hout
  subst hout
  refine ⟨rfl, dedupBySample_nodup crs [], ?_, ?_⟩
  · intro s
    rw [dedupBySample_mem_iff crs [] s]
    simp
  · intro r hr
    exact dedupBySample_first crs [] r hr

/-- Witness for `C7_sample_table_unique`: two file rows of the same source
    and replicate produce the same sample id `1`; the sample table keeps one
    row. -/
theorem C7_witness :
    [(⟨"1", "c", "1"⟩ : SampleRow)] =
        dedupBySampleAux [⟨"1", "c", "1"⟩, ⟨"1", "c", "1"⟩] [] ∧
      (([(⟨"1", "c", "1"⟩ : SampleRow)].map SampleRow.sample).Nodup) := by
  have h := C7_sample_table_unique ["S1"] [("S1", 1)]
    [("f1.raw", "1"), ("f2.raw", "1")] [("f1.raw", "c"), ("f2.raw", "c")]
    [⟨"f1.raw", "S1", [], none, none, none, none, none, "", "", [], []⟩,
     ⟨"f2.raw", "S1", [], none, none, none, none, none, "", "", [], []⟩]
    [⟨"1", "c", "1"⟩, ⟨"1", "c", "1"⟩] [⟨"1", "c", "1"⟩] (by rfl) (by rfl)
  exact ⟨h.1, h.2.1⟩

/-- C8 (counterexample): with an empty factor-column list the function does
    not retain the (trivially non-redundant) characteristic column — it
    raises an unbound-local error, because the returned loop variable `f`
    was never assigned. -/
theorem C8_counterexample :
    removeRedundantCharacteristics ["c1"] (fun _ => ([] : List String)) [] =
      .error .unboundLocalError :=
  rfl

/-- C8 (amended): provided both column lists are nonempty (otherwise the
    stray second return value raises an unbound-local error),
    `removeRedundantCharacteristics` returns exactly the characteristic
    columns filtered — in their original order — by the absence of a factor
    column with an identical value sequence: a characteristic column is
    removed iff some factor column matches it row for row. -/
theorem C8_amended_filter (chars : List String) (col : String → List String)
    (factors : List String) (h1 : chars ≠ []) (h2 : factors ≠ []) :
    (∃ fv, removeRedundantCharacteristics chars col factors =
        .ok (chars.filter (fun c => decide (¬ ∃ fc ∈ factors, col c = col fc)), fv)) ∧
      (∀ c, c ∈ chars.filter (fun c => decide (¬ ∃ fc ∈ factors, col c = col fc)) ↔
        c ∈ chars ∧ ¬ ∃ fc ∈ factors, col c = col fc) := by
  constructor
  · have hsome := rrcOuter_snd_isSome col factors h2 chars ([], none) h1
    rcases hOut : rrcOuter col factors chars ([], none) with ⟨red, fOpt⟩
    cases fOpt with
    | none => rw [hOut] at hsome; simp at hsome
    | some fv =>
      refine ⟨fv, ?_⟩
      unfold removeRedundantCharacteristics
      rw [hOut]
      show Except.ok (chars.filter (fun x => decide (x ∉ red)), fv) = _
      have hfil : chars.filter (fun x => decide (x ∉ red)) =
          chars.filter (fun c => decide (¬ ∃ fc ∈ factors, col c = col fc)) := by
        refine List.filter_congr ?_
        intro x hx
        have hmem := rrcOuter_fst_mem col factors chars ([], none) x
        rw [hOut] at hmem
        simp only [List.not_mem_nil, false_or] at hmem
        refine decide_eq_decide.mpr (not_congr ?_)
        rw [hmem]
        exact and_iff_right hx
      rw [hfil]
  · intro c
    simp [List.mem_filter]

/-- Witness for `C8_amended_filter`: characteristic `c1` duplicating factor
    `f1` is removed, `c2` is kept. -/
theorem C8_witness :
    ∃ fv, removeRedundantCharacteristics ["c1", "c2"] c8ExampleCol ["f1"] =
      .ok (["c1", "c2"].filter
        (fun c => decide (¬ ∃ fc ∈ ["f1"], c8ExampleCol c = c8ExampleCol fc)), fv) :=
  (C8_amended_filter ["c1", "c2"] c8ExampleCol ["f1"] (by simp) (by simp)).1

/-- C9: the twelve per-file maps are class attributes of
    `FileToColumnEntries`, so the `FileToColumnEntries()` constructed at the
    start of a later conversion run is the class state left by the earlier
    run (first conjunct, by definition of the instance construction), and
    any entry the first run left in any of the twelve maps is still present
    — unchanged — after the second run completes, for every file key the
    second run's rows do not touch. -/
theorem C9_class_attributes_persist (lookup : String → Option String)
    (classState : F2CState) (rows1 rows2 : List Row) (s1 s2 : ExtractState)
    (_h1 : openms_convert_extract lookup classState rows1 = .ok s1)
    (h2 : openms_convert_extract lookup s1.f2c rows2 = .ok s2)
    (k : String) (hk : ∀ r ∈ rows2, k ≠ r.dataFile) :
    fileToColumnEntriesNew s1.f2c = s1.f2c ∧ mapsAgreeAt k s2.f2c s1.f2c := by
  refine ⟨rfl, ?_⟩
  unfold openms_convert_extract at h2
  have := extractAll_agree lookup rows2 ⟨fileToColumnEntriesNew s1.f2c, [], [], []⟩ s2 h2 k hk
  exact this

/-- Witness for `C9_class_attributes_persist`: after a first run over
    `f1.raw` and a second run over `f2.raw`, the first file's precursor
    tolerance and source entries are still in the class dictionaries. -/
theorem C9_witness :
    dictGet persistState2.f2c.file2pctol "f1.raw" = some "10" ∧
      dictGet persistState2.f2c.file2source "f1.raw" = some "A" := by
  have h := C9_class_attributes_persist (fun _ => none) F2CState.classInit persistRows1
    persistRows2 persistState1 persistState2 (by rfl) (by rfl) "f1.raw"
    (by intro r hr; simp only [persistRows2, mkExampleRow, List.mem_singleton] at hr
        rw [hr]; decide)
  obtain ⟨-, -, hpc, -, -, -, -, -, -, -, hsrc, -, -⟩ := h
  exact ⟨hpc.trans (by rfl), hsrc.trans (by rfl)⟩

end SdrfOpenms
